import Mathlib

/-!
Verification development for the auto-writer typing engine.

Shallow embedding of the core components:
  * `DelayModel` (src/engine/delay_model.py)
  * `TypoGenerator` (src/engine/typo_generator.py)
  * `TypingEngine.run` (src/engine/typing_engine.py)
  * `HotkeyListener.rebind` (src/hotkey/hotkey_listener.py)
  * `AppSettings.__post_init__` (src/config/config_store.py)

Real numbers produced by the Python code are modelled as rationals.
Randomness (random.gauss, random.random, random.choice) and the
cross-thread cancellation flag are modelled by oracle functions supplied
as explicit arguments, so every run of the engine is a deterministic
function of the text and the oracle.
-/

namespace AutoWriter

/-! ### Python character helpers (ASCII case model)

The adjacency table only contains the 26 lowercase ASCII letters, so the
ASCII fragment of Python's str.lower / str.upper / str.isupper /
str.isalpha is what the embedded code exercises. -/

/-- ASCII model of Python str.lower for a single character. -/
def pyLower (c : Char) : Char :=
  if 'A' ≤ c ∧ c ≤ 'Z' then Char.ofNat (c.toNat + 32) else c

/-- ASCII model of Python str.upper for a single character. -/
def pyUpper (c : Char) : Char :=
  if 'a' ≤ c ∧ c ≤ 'z' then Char.ofNat (c.toNat - 32) else c

/-- ASCII model of Python str.isupper for a single character. -/
def pyIsUpper (c : Char) : Bool :=
  decide ('A' ≤ c ∧ c ≤ 'Z')

/-- ASCII model of Python str.isalpha for a single character. -/
def pyIsAlpha (c : Char) : Bool :=
  decide (('A' ≤ c ∧ c ≤ 'Z') ∨ ('a' ≤ c ∧ c ≤ 'z'))

/-! ### DelayModel (src/engine/delay_model.py) -/

/-- State of a constructed DelayModel: mean_ms, stddev_ms, min_ms, max_ms. -/
structure DelayModel where
  mean_ms : ℚ
  stddev_ms : ℚ
  min_ms : ℚ
  max_ms : ℚ
deriving DecidableEq, Repr

/-- DelayModel.wpm_to_mean_delay_ms: (60000 / wpm) / 5. -/
def wpm_to_mean_delay_ms (wpm : ℚ) : ℚ :=
  (60000 / wpm) / 5

/-- DelayModel.__init__: mean from wpm, stddev = mean * variance. -/
def mkDelayModel (wpm variance min_ms max_ms : ℚ) : DelayModel :=
  { mean_ms := wpm_to_mean_delay_ms wpm
    stddev_ms := wpm_to_mean_delay_ms wpm * variance
    min_ms := min_ms
    max_ms := max_ms }

/-- DelayModel.next_delay.  random.gauss(mu, sigma) returns mu + sigma * z
where z is the standard normal draw; z is the oracle input here.  The
sample is clamped to [min_ms, max_ms] and converted to seconds. -/
def next_delay (dm : DelayModel) (z : ℚ) : ℚ :=
  let delay_ms := dm.mean_ms + dm.stddev_ms * z
  let clamped := max dm.min_ms (min dm.max_ms delay_ms)
  clamped / 1000

/-! ### TypoGenerator (src/engine/typo_generator.py) -/

/-- The ADJACENT_KEYS table, verbatim from the source. -/
def ADJACENT_KEYS : List (Char × List Char) :=
  [ ('a', ['s', 'q', 'z', 'w']),
    ('b', ['v', 'g', 'h', 'n']),
    ('c', ['x', 'd', 'f', 'v']),
    ('d', ['s', 'e', 'r', 'f', 'c', 'x']),
    ('e', ['w', 's', 'd', 'r', '3', '4']),
    ('f', ['d', 'r', 't', 'g', 'v', 'c']),
    ('g', ['f', 't', 'y', 'h', 'b', 'v']),
    ('h', ['g', 'y', 'u', 'j', 'n', 'b']),
    ('i', ['u', 'j', 'k', 'o', '8', '9']),
    ('j', ['h', 'u', 'i', 'k', 'n', 'm']),
    ('k', ['j', 'i', 'o', 'l', 'm']),
    ('l', ['k', 'o', 'p', ';']),
    ('m', ['n', 'j', 'k', ',']),
    ('n', ['b', 'h', 'j', 'm']),
    ('o', ['i', 'k', 'l', 'p', '9', '0']),
    ('p', ['o', 'l', '[', '0', '-']),
    ('q', ['w', 'a', '1', '2']),
    ('r', ['e', 'd', 'f', 't', '4', '5']),
    ('s', ['a', 'w', 'e', 'd', 'x', 'z']),
    ('t', ['r', 'f', 'g', 'y', '5', '6']),
    ('u', ['y', 'h', 'j', 'i', '7', '8']),
    ('v', ['c', 'f', 'g', 'b']),
    ('w', ['q', 'a', 's', 'e', '2', '3']),
    ('x', ['z', 's', 'd', 'c']),
    ('y', ['t', 'g', 'h', 'u', '6', '7']),
    ('z', ['a', 's', 'x']) ]

/-- Dictionary lookup `ADJACENT_KEYS[lower]` guarded by the membership test. -/
def lookupAdj (c : Char) : Option (List Char) :=
  ADJACENT_KEYS.lookup c

/-- TypoGenerator.should_typo: random.random() < typo_rate.  The draw r of
random.random() is the oracle input (0 ≤ r < 1 for the real RNG). -/
def should_typo (typo_rate r : ℚ) : Bool :=
  decide (r < typo_rate)

/-- TypoGenerator.get_typo_char.  random.choice picks one element of the
neighbor list; the oracle input `choice` selects the index (reduced mod
the list length, so every oracle value names a valid element). -/
def get_typo_char (correct_char : Char) (choice : ℕ) : Option Char :=
  match lookupAdj (pyLower correct_char) with
  | none => none
  | some l =>
    match l[choice % l.length]? with
    | none => none
    | some typo => some (if pyIsUpper correct_char then pyUpper typo else typo)

/-! ### TypingEngine (src/engine/typing_engine.py)

`run(text)` is embedded as a deterministic function of the text and an
oracle.  The oracle supplies, per loop iteration `i`, the value the
cancellation event has at the check opening iteration `i`, the
random.random() draw consumed by should_typo and the random.choice index
consumed by get_typo_char; per delay-model call `d`, the standard normal
draw; and per key-injection call `j`, whether the pynput controller call
succeeds or raises.  The run is recorded as the list of externally
visible events (status callbacks, key press / release / type calls and
sleeps), plus the lock state and the way the call exited. -/

/-- Named special keys injected by the engine (pynput Key.enter / Key.tab /
Key.backspace). -/
inductive PKey
  | enter
  | tab
  | backspace
deriving DecidableEq, Repr

/-- Externally visible events of one run: status callbacks, controller
calls and sleeps (sleep records the duration in seconds). -/
inductive Ev
  | status (s : String)
  | press (k : PKey)
  | release (k : PKey)
  | typed (c : Char)
  | sleep (q : ℚ)
deriving DecidableEq, Repr

/-- Oracle: all nondeterminism of one run, as functions of call indices. -/
structure Oracle where
  cancelAt : ℕ → Bool
  randTypo : ℕ → ℚ
  typoChoice : ℕ → ℕ
  gaussZ : ℕ → ℚ
  injOk : ℕ → Bool

/-- The engine configuration built by update_settings: the delay model and
the typo rate. -/
structure EngineCfg where
  delay : DelayModel
  typo_rate : ℚ

/-- The value of the d-th next_delay() call of a run. -/
def delayAt (cfg : EngineCfg) (o : Oracle) (d : ℕ) : ℚ :=
  next_delay cfg.delay (o.gaussZ d)

/-- One primitive action of the loop body: a key-injection call (which may
raise) or a sleep (which cannot). -/
inductive Act
  | inj (e : Ev)
  | sleepFor (q : ℚ)
deriving DecidableEq, Repr

/-- The actions the loop body performs for one character, together with
the number of next_delay() calls consumed.  Mirrors the dispatch in
TypingEngine.run: newline and tab map to special-key press/release pairs;
other characters take the typo path when the character is alphabetic,
should_typo() fires and get_typo_char returns a substitute. -/
def charActs (cfg : EngineCfg) (o : Oracle) (c : Char) (i d : ℕ) :
    List Act × ℕ :=
  if c = '\n' then
    ([.inj (.press .enter), .inj (.release .enter),
      .sleepFor (delayAt cfg o d)], 1)
  else if c = '\t' then
    ([.inj (.press .tab), .inj (.release .tab),
      .sleepFor (delayAt cfg o d)], 1)
  else if pyIsAlpha c ∧ should_typo cfg.typo_rate (o.randTypo i) then
    match get_typo_char c (o.typoChoice i) with
    | some t =>
      ([.inj (.typed t), .sleepFor (delayAt cfg o d),
        .inj (.press .backspace), .inj (.release .backspace),
        .sleepFor (delayAt cfg o (d + 1) * (1 / 2)),
        .inj (.typed c), .sleepFor (delayAt cfg o (d + 2))], 3)
    | none =>
      ([.inj (.typed c), .sleepFor (delayAt cfg o d)], 1)
  else
    ([.inj (.typed c), .sleepFor (delayAt cfg o d)], 1)

/-- Run a list of actions starting at injection counter j.  A failing
injection raises: the events before it stay emitted, the rest of the
actions are dropped, and the Boolean reports whether the sequence
completed without raising. -/
def runActs (o : Oracle) : List Act → ℕ → List Ev × ℕ × Bool
  | [], j => ([], j, true)
  | .sleepFor q :: rest, j =>
    let r := runActs o rest j
    (.sleep q :: r.1, r.2)
  | .inj e :: rest, j =>
    if o.injOk j then
      let r := runActs o rest (j + 1)
      (e :: r.1, r.2)
    else
      ([], j + 1, false)

/-- How the for-loop of run(text) exited. -/
inductive BodyExit
  | completed
  | cancelled
  | raised
deriving DecidableEq, Repr

/-- The for-loop of TypingEngine.run, from character index i, delay-call
counter d and injection-call counter j: check the cancellation signal
first, then dispatch the character, then recurse.  Status "idle" is the
post-loop emission on normal exhaustion. -/
def runLoop (cfg : EngineCfg) (o : Oracle) :
    List Char → ℕ → ℕ → ℕ → List Ev × BodyExit
  | [], _, _, _ => ([.status "idle"], .completed)
  | c :: cs, i, d, j =>
    if o.cancelAt i then
      ([.status "cancelled"], .cancelled)
    else
      let acts := charActs cfg o c i d
      let r := runActs o acts.1 j
      if r.2.2 then
        let rest := runLoop cfg o cs (i + 1) (d + acts.2) r.2.1
        (r.1 ++ rest.1, rest.2)
      else
        (r.1, .raised)

/-- How a whole run(text) call exited, as seen by the caller. -/
inductive Outcome
  | skipped
  | completed
  | cancelled
  | raised
deriving DecidableEq, Repr

/-- How BodyExit surfaces to the caller of run: an exception raised in the
loop propagates out of the try/finally (it is re-raised, not retried). -/
def outcomeOfExit : BodyExit → Outcome
  | .completed => .completed
  | .cancelled => .cancelled
  | .raised => .raised

/-- Result of one run(text) call: the emitted events, whether the typing
lock is (still) held once the call has returned, and how it exited. -/
structure RunResult where
  events : List Ev
  lockHeldAfter : Bool
  outcome : Outcome
deriving DecidableEq, Repr

/-- TypingEngine.run.  `lockHeld` is whether the exclusive typing lock is
already held by an in-progress session when the call starts.  The
non-blocking acquire fails in that case and the call is a silent no-op.
Otherwise the body runs inside try/finally: the cancellation event is
cleared, status "typing" is emitted, the loop runs, and the finally
releases the lock on every exit path. -/
def run (cfg : EngineCfg) (o : Oracle) (text : List Char)
    (lockHeld : Bool) : RunResult :=
  if lockHeld then
    { events := [], lockHeldAfter := true, outcome := .skipped }
  else
    let body := runLoop cfg o text 0 0 0
    { events := .status "typing" :: body.1
      lockHeldAfter := false
      outcome := outcomeOfExit body.2 }

/-- Boolean test for a given status event. -/
def isStatus (s : String) : Ev → Bool
  | .status t => t == s
  | _ => false

/-- Boolean test for a key-injection event (press, release or typed). -/
def isInjection : Ev → Bool
  | .press _ => true
  | .release _ => true
  | .typed _ => true
  | _ => false

/-! ### HotkeyListener.rebind (src/hotkey/hotkey_listener.py)

Only the matcher pair and its atomic replacement are in scope.  Parsing
is keyboard.HotKey.parse from the pynput library (not in this
repository); it is abstracted as an explicit `parse` argument returning
`none` exactly when the real parser raises ValueError.  A matcher is
modelled by the parsed chord value it was built from. -/

/-- The two swappable matcher fields of a HotkeyListener. -/
structure HotkeyState (K : Type) where
  activate_hotkey : Option K
  cancel_hotkey : Option K
deriving DecidableEq, Repr

/-- HotkeyListener._set_hotkeys: parse the activate combo, then the cancel
combo; a ValueError from either parse propagates before any field is
assigned.  Only after both parses succeed are both fields replaced.
Returns the resulting state and whether the call succeeded (false models
the raised ValueError, with the state as it was left). -/
def set_hotkeys {K : Type} (parse : String → Option K)
    (st : HotkeyState K) (activate_combo cancel_combo : String) :
    HotkeyState K × Bool :=
  match parse activate_combo with
  | none => (st, false)
  | some activate_keys =>
    match parse cancel_combo with
    | none => (st, false)
    | some cancel_keys =>
      ({ activate_hotkey := some activate_keys
         cancel_hotkey := some cancel_keys }, true)

/-- HotkeyListener.rebind: _set_hotkeys under the mutex. -/
def rebind {K : Type} (parse : String → Option K)
    (st : HotkeyState K) (activate_combo cancel_combo : String) :
    HotkeyState K × Bool :=
  set_hotkeys parse st activate_combo cancel_combo

/-! ### AppSettings (src/config/config_store.py) -/

/-- DEFAULT_ACTIVATE_HOTKEY from src/platform_support.py (non-macOS
branch; the macOS value differs only in the modifier token). -/
def DEFAULT_ACTIVATE_HOTKEY : String := "<ctrl>+<shift>+k"

/-- DEFAULT_CANCEL_HOTKEY from src/platform_support.py. -/
def DEFAULT_CANCEL_HOTKEY : String := "<esc>"

/-- Python int() applied to a float: truncation toward zero. -/
def pyInt (q : ℚ) : ℤ :=
  if 0 ≤ q then ⌊q⌋ else ⌈q⌉

/-- Python str.strip() produces the empty string, i.e. the string is
entirely whitespace. -/
def isBlank (chars : List Char) : Bool :=
  chars.all fun c => c ∈ [' ', '\t', '\n', '\r', '\x0b', '\x0c']

/-- The raw field values handed to the AppSettings constructor before
__post_init__ runs.  A chord field is `none` when the raw value fails the
isinstance(str) check; otherwise it carries the characters of the raw
string. -/
structure SettingsInput where
  typing_speed_wpm : ℚ
  speed_variance : ℚ
  typo_rate : ℚ
  activate_hotkey : Option (List Char)
  cancel_hotkey : Option (List Char)
  min_delay_ms : ℚ
  max_delay_ms : ℚ

/-- The settings snapshot after __post_init__. -/
structure AppSettings where
  typing_speed_wpm : ℤ
  speed_variance : ℚ
  typo_rate : ℚ
  activate_hotkey : List Char
  cancel_hotkey : List Char
  min_delay_ms : ℚ
  max_delay_ms : ℚ
deriving DecidableEq, Repr

/-- True when a raw chord value survives __post_init__ unreplaced: it is
a string and not blank. -/
def chordValid : Option (List Char) → Bool
  | none => false
  | some s => !isBlank s

/-- A raw chord value after __post_init__: kept when valid, otherwise
replaced by the given default. -/
def chordOrDefault (dflt : List Char) : Option (List Char) → List Char
  | none => dflt
  | some s => if isBlank s then dflt else s

/-- AppSettings.__post_init__: clamp every numeric field into its range
(max_delay_ms is clamped against the already-clamped min_delay_ms) and
substitute the platform default for a non-string or blank chord field.
Total: construction never fails. -/
def post_init (inp : SettingsInput) : AppSettings :=
  { typing_speed_wpm := max 30 (min 120 (pyInt inp.typing_speed_wpm))
    speed_variance := max 0 (min 1 inp.speed_variance)
    typo_rate := max 0 (min (1 / 10) inp.typo_rate)
    min_delay_ms := max 1 inp.min_delay_ms
    max_delay_ms := max (max 1 inp.min_delay_ms) inp.max_delay_ms
    activate_hotkey :=
      chordOrDefault DEFAULT_ACTIVATE_HOTKEY.data inp.activate_hotkey
    cancel_hotkey :=
      chordOrDefault DEFAULT_CANCEL_HOTKEY.data inp.cancel_hotkey }

/-- The declared-range predicate of the settings snapshot: every numeric
field within its documented range and min_delay_ms ≤ max_delay_ms. -/
def settingsOk (s : AppSettings) : Prop :=
  30 ≤ s.typing_speed_wpm ∧ s.typing_speed_wpm ≤ 120 ∧
  0 ≤ s.speed_variance ∧ s.speed_variance ≤ 1 ∧
  0 ≤ s.typo_rate ∧ s.typo_rate ≤ 1 / 10 ∧
  1 ≤ s.min_delay_ms ∧ s.min_delay_ms ≤ s.max_delay_ms

/-! ### Helper lemmas -/

/-- A successful association-list lookup returns a value paired with the
key somewhere in the list. -/
theorem lookup_mem {α β : Type} [BEq α] [LawfulBEq α] {a : α} {b : β} :
    ∀ {ps : List (α × β)}, ps.lookup a = some b → (a, b) ∈ ps := by
  intro ps
  induction ps with
  | nil => intro h; simp [List.lookup] at h
  | cons p rest ih =>
    intro h
    rw [List.lookup] at h
    rcases hk : a == p.1 with _ | _
    · rw [hk] at h
      exact List.mem_cons_of_mem _ (ih h)
    · rw [hk] at h
      obtain rfl := eq_of_beq hk
      obtain rfl : p.2 = b := Option.some.inj h
      exact List.mem_cons_self _ _

/-- Every neighbor list of the adjacency table is nonempty. -/
theorem adjacent_lists_nonempty :
    ∀ p ∈ ADJACENT_KEYS, p.2.length ≠ 0 := by decide

/-- No key of the adjacency table appears in its own neighbor list. -/
theorem adjacent_no_self : ∀ p ∈ ADJACENT_KEYS, p.1 ∉ p.2 := by decide

/-- Uppercasing any neighbor and lowercasing the result never lands back
on the neighbor's own table key. -/
theorem adjacent_upper_lower_ne :
    ∀ p ∈ ADJACENT_KEYS, ∀ x ∈ p.2, pyLower (pyUpper x) ≠ p.1 := by decide

/-- A character that is not an ASCII uppercase letter is fixed by pyLower. -/
theorem pyLower_eq_self {c : Char} (h : pyIsUpper c = false) :
    pyLower c = c := by
  unfold pyLower
  rw [if_neg]
  intro hc
  simp [pyIsUpper, hc] at h

/-! ### Claims about DelayModel -/

/-- C5 (counterexample): with variance 0 the claim "next_delay() returns
exactly mean_ms/1000 for any speed, min_ms, max_ms" fails: at speed 120,
min_ms = 1000, max_ms = 2000 the mean of 100 ms is clamped up to the
floor, so the draw is 1 second, not mean_ms/1000 = 1/10. -/
theorem variance_zero_not_always_mean :
    next_delay (mkDelayModel 120 0 1000 2000) 0 ≠
      (mkDelayModel 120 0 1000 2000).mean_ms / 1000 := by
  norm_num [next_delay, mkDelayModel, wpm_to_mean_delay_ms]

/-- C5 (amended): for a DelayModel with variance 0, provided the mean is
inside the clamp window min_ms ≤ mean_ms ≤ max_ms, every next_delay()
call returns exactly mean_ms/1000 seconds with mean_ms = (60000/speed)/5,
whatever the normal draw is. -/
theorem variance_zero_constant_delay (wpm min_ms max_ms z : ℚ)
    (hmin : min_ms ≤ wpm_to_mean_delay_ms wpm)
    (hmax : wpm_to_mean_delay_ms wpm ≤ max_ms) :
    next_delay (mkDelayModel wpm 0 min_ms max_ms) z =
      wpm_to_mean_delay_ms wpm / 1000 := by
  simp only [next_delay, mkDelayModel]
  rw [mul_zero, zero_mul, add_zero, min_eq_right hmax, max_eq_right hmin]

/-- C5 witness: at speed 70, bounds [20, 300], normal draw 5, the delay
equals mean_ms/1000. -/
theorem variance_zero_constant_delay_witness :
    next_delay (mkDelayModel 70 0 20 300) 5 =
      wpm_to_mean_delay_ms 70 / 1000 :=
  variance_zero_constant_delay 70 20 300 5
    (by norm_num [wpm_to_mean_delay_ms]) (by norm_num [wpm_to_mean_delay_ms])

/-- C6: for min_ms ≤ max_ms and variance ≥ 0, every next_delay() value
times 1000 lies within [min_ms, max_ms]. -/
theorem next_delay_within_bounds (wpm variance min_ms max_ms z : ℚ)
    (_hvar : 0 ≤ variance) (hle : min_ms ≤ max_ms) :
    min_ms ≤ next_delay (mkDelayModel wpm variance min_ms max_ms) z * 1000 ∧
    next_delay (mkDelayModel wpm variance min_ms max_ms) z * 1000 ≤ max_ms := by
  simp only [next_delay, mkDelayModel]
  rw [div_mul_cancel₀ _ (by norm_num : (1000 : ℚ) ≠ 0)]
  exact ⟨le_max_left _ _, max_le hle (min_le_left _ _)⟩

/-- C6 witness: at speed 70, variance 1/2, bounds [20, 300], normal draw
7, the delay in milliseconds is within the bounds. -/
theorem next_delay_within_bounds_witness :
    20 ≤ next_delay (mkDelayModel 70 (1 / 2) 20 300) 7 * 1000 ∧
    next_delay (mkDelayModel 70 (1 / 2) 20 300) 7 * 1000 ≤ 300 :=
  next_delay_within_bounds 70 (1 / 2) 20 300 7 (by norm_num) (by norm_num)

/-! ### Claims about TypoGenerator -/

/-- C7: get_typo_char returns none exactly when the lowercased character
is not a key of the adjacency table; otherwise it returns an element of
that entry's neighbor list, re-cased to match the case of the input. -/
theorem get_typo_char_cases (c : Char) (r : ℕ) :
    (lookupAdj (pyLower c) = none → get_typo_char c r = none) ∧
    (∀ l, lookupAdj (pyLower c) = some l →
      ∃ t, t ∈ l ∧
        get_typo_char c r = some (if pyIsUpper c then pyUpper t else t)) := by
  constructor
  · intro h
    simp [get_typo_char, h]
  · intro l hl
    have hmem : (pyLower c, l) ∈ ADJACENT_KEYS := lookup_mem hl
    have hpos : 0 < l.length :=
      Nat.pos_of_ne_zero (adjacent_lists_nonempty _ hmem)
    have hlt : r % l.length < l.length := Nat.mod_lt _ hpos
    refine ⟨l[r % l.length], List.getElem_mem hlt, ?_⟩
    simp [get_typo_char, hl, List.getElem?_eq_getElem hlt]

/-- C7 witness: the digit '5' is off the table and maps to none; the
uppercase letter 'Q' maps to an uppercased neighbor of 'q'. -/
theorem get_typo_char_cases_witness :
    get_typo_char '5' 0 = none ∧
    ∃ t, t ∈ ['w', 'a', '1', '2'] ∧
      get_typo_char 'Q' 5 = some (if pyIsUpper 'Q' then pyUpper t else t) :=
  ⟨(get_typo_char_cases '5' 0).1 rfl,
   (get_typo_char_cases 'Q' 5).2 ['w', 'a', '1', '2'] rfl⟩

/-- C10: a substitute returned by get_typo_char is never the correct
character itself: no table key is in its own neighbor list, and re-casing
preserves the difference. -/
theorem get_typo_char_ne (c : Char) (r : ℕ) (t : Char)
    (h : get_typo_char c r = some t) : t ≠ c := by
  unfold get_typo_char at h
  split at h
  · exact absurd h (by simp)
  · rename_i l hl
    split at h
    · exact absurd h (by simp)
    · rename_i t0 hg
      obtain rfl : (if pyIsUpper c then pyUpper t0 else t0) = t := by
        simpa using h
      have ht0 : t0 ∈ l := List.getElem?_mem hg
      have hmem : (pyLower c, l) ∈ ADJACENT_KEYS := lookup_mem hl
      by_cases hu : pyIsUpper c = true
      · rw [if_pos hu]
        intro hEq
        exact adjacent_upper_lower_ne _ hmem t0 ht0 (by rw [hEq])
      · have hu2 : pyIsUpper c = false := by simpa using hu
        rw [if_neg (by simp [hu2])]
        intro hEq
        subst hEq
        have hself := adjacent_no_self _ hmem
        rw [pyLower_eq_self hu2] at hself
        exact hself ht0

/-- C10 witness: the substitute produced for 'a' at choice 0 is 's',
which differs from 'a'. -/
theorem get_typo_char_ne_witness :
    get_typo_char 'a' 0 = some 's' ∧ ('s' : Char) ≠ 'a' :=
  ⟨rfl, get_typo_char_ne 'a' 0 's' rfl⟩

/-! ### Claims about HotkeyListener.rebind -/

/-- C8: rebind with at least one malformed chord string reports the
format error and leaves both previously active matchers exactly as they
were (no partial replacement); when both chords parse, both matchers are
replaced together. -/
theorem rebind_atomic {K : Type} (parse : String → Option K)
    (st : HotkeyState K) (a c : String) :
    ((parse a = none ∨ parse c = none) →
      rebind parse st a c = (st, false)) ∧
    (∀ ak ck, parse a = some ak → parse c = some ck →
      rebind parse st a c =
        ({ activate_hotkey := some ak, cancel_hotkey := some ck }, true)) := by
  constructor
  · rintro (h | h)
    · simp [rebind, set_hotkeys, h]
    · cases hpa : parse a with
      | none => simp [rebind, set_hotkeys, hpa]
      | some ak => simp [rebind, set_hotkeys, hpa, h]
  · intro ak ck ha hc
    simp [rebind, set_hotkeys, ha, hc]

/-- Toy parser used to witness rebind: rejects exactly the empty string. -/
def demoParse (s : String) : Option String :=
  if s = "" then none else some s

/-- C8 witness: a rebind with a malformed activate chord leaves the old
pair intact and fails; a rebind with two well-formed chords installs
both. -/
theorem rebind_atomic_witness :
    rebind demoParse
        { activate_hotkey := some "<ctrl>+<shift>+k",
          cancel_hotkey := some "<esc>" } "" "<esc>" =
      ({ activate_hotkey := some "<ctrl>+<shift>+k",
         cancel_hotkey := some "<esc>" }, false) ∧
    rebind demoParse
        { activate_hotkey := some "<ctrl>+<shift>+k",
          cancel_hotkey := some "<esc>" } "<alt>+j" "<esc>" =
      ({ activate_hotkey := some "<alt>+j",
         cancel_hotkey := some "<esc>" }, true) :=
  ⟨(rebind_atomic demoParse _ "" "<esc>").1 (Or.inl rfl),
   (rebind_atomic demoParse _ "<alt>+j" "<esc>").2 "<alt>+j" "<esc>" rfl rfl⟩

/-! ### Claims about AppSettings -/

/-- C9: constructing a settings snapshot never fails (post_init is total)
and afterwards every numeric field is inside its declared range,
min_delay_ms ≤ max_delay_ms, and a non-string or blank chord field has
been replaced by its platform default. -/
theorem post_init_clamps (inp : SettingsInput) :
    settingsOk (post_init inp) ∧
    (chordValid inp.activate_hotkey = false →
      (post_init inp).activate_hotkey = DEFAULT_ACTIVATE_HOTKEY.data) ∧
    (chordValid inp.cancel_hotkey = false →
      (post_init inp).cancel_hotkey = DEFAULT_CANCEL_HOTKEY.data) := by
  refine ⟨⟨le_max_left _ _, max_le (by norm_num) (min_le_left _ _),
    le_max_left _ _, max_le (by norm_num) (min_le_left _ _),
    le_max_left _ _, max_le (by norm_num) (min_le_left _ _),
    le_max_left _ _, le_max_left _ _⟩, ?_, ?_⟩
  · cases h : inp.activate_hotkey with
    | none => intro _; simp [post_init, chordOrDefault, h]
    | some s =>
      intro hv
      have hb : isBlank s = true := by
        simpa [chordValid, h] using hv
      simp [post_init, chordOrDefault, h, hb]
  · cases h : inp.cancel_hotkey with
    | none => intro _; simp [post_init, chordOrDefault, h]
    | some s =>
      intro hv
      have hb : isBlank s = true := by
        simpa [chordValid, h] using hv
      simp [post_init, chordOrDefault, h, hb]

/-- C9 witness: a record with every numeric field out of range, a
non-string activate chord and a whitespace-only cancel chord is clamped
into range and given default chords. -/
theorem post_init_clamps_witness :
    settingsOk (post_init
      { typing_speed_wpm := 1000, speed_variance := 5, typo_rate := -3,
        activate_hotkey := none, cancel_hotkey := some "   ".data,
        min_delay_ms := 1 / 2, max_delay_ms := -50 }) ∧
    (post_init
      { typing_speed_wpm := 1000, speed_variance := 5, typo_rate := -3,
        activate_hotkey := none, cancel_hotkey := some "   ".data,
        min_delay_ms := 1 / 2, max_delay_ms := -50 }).activate_hotkey =
      DEFAULT_ACTIVATE_HOTKEY.data ∧
    (post_init
      { typing_speed_wpm := 1000, speed_variance := 5, typo_rate := -3,
        activate_hotkey := none, cancel_hotkey := some "   ".data,
        min_delay_ms := 1 / 2, max_delay_ms := -50 }).cancel_hotkey =
      DEFAULT_CANCEL_HOTKEY.data := by
  refine ⟨(post_init_clamps _).1, (post_init_clamps _).2.1 rfl,
    (post_init_clamps _).2.2 rfl⟩

/-! ### Engine loop lemmas -/

/-- Whether an action would emit a given status event. -/
def actHasStatus (s : String) : Act → Bool
  | .inj e => isStatus s e
  | .sleepFor _ => false

/-- When every injection call succeeds, running any action list reports
success. -/
theorem runActs_ok (o : Oracle) (hinj : ∀ k, o.injOk k = true) :
    ∀ (acts : List Act) (j : ℕ), (runActs o acts j).2.2 = true := by
  intro acts
  induction acts with
  | nil => intro j; rfl
  | cons a rest ih =>
    intro j
    cases a with
    | sleepFor q => simpa [runActs] using ih j
    | inj e => simpa [runActs, hinj j] using ih (j + 1)

/-- Running an action list that contains no status-s action emits no
status-s event, whether or not an injection fails along the way. -/
theorem runActs_no_status (o : Oracle) (s : String) :
    ∀ (acts : List Act), (∀ a ∈ acts, actHasStatus s a = false) →
      ∀ j, ((runActs o acts j).1.countP (isStatus s)) = 0 := by
  intro acts
  induction acts with
  | nil => intro _ j; rfl
  | cons a rest ih =>
    intro hall j
    have hrest : ∀ a ∈ rest, actHasStatus s a = false :=
      fun a ha => hall a (List.mem_cons_of_mem _ ha)
    cases a with
    | sleepFor q =>
      simp [runActs, List.countP_cons, isStatus, ih hrest j]
    | inj e =>
      have he : isStatus s e = false := hall _ (List.mem_cons_self _ _)
      by_cases hj : o.injOk j = true
      · simp [runActs, hj, List.countP_cons, he, ih hrest (j + 1)]
      · simp only [Bool.not_eq_true] at hj
        simp [runActs, hj]

/-- The per-character action list of the loop body never contains a
status emission: statuses only come from the loop shell. -/
theorem charActs_no_status (cfg : EngineCfg) (o : Oracle) (c : Char)
    (i d : ℕ) (s : String) :
    ∀ a ∈ (charActs cfg o c i d).1, actHasStatus s a = false := by
  intro a ha
  unfold charActs at ha
  split at ha
  · rcases (by simpa using ha : a = _ ∨ a = _ ∨ a = _) with rfl | rfl | rfl <;> rfl
  · split at ha
    · rcases (by simpa using ha : a = _ ∨ a = _ ∨ a = _) with rfl | rfl | rfl <;> rfl
    · split at ha
      · split at ha
        · rcases (by simpa using ha :
            a = _ ∨ a = _ ∨ a = _ ∨ a = _ ∨ a = _ ∨ a = _ ∨ a = _) with
            rfl | rfl | rfl | rfl | rfl | rfl | rfl <;> rfl
        · rcases (by simpa using ha : a = _ ∨ a = _) with rfl | rfl <;> rfl
      · rcases (by simpa using ha : a = _ ∨ a = _) with rfl | rfl <;> rfl

/-- If the cancellation flag is first observed set at the m-th check of
the remaining loop (and no injection fails), the loop emits the events of
the first m characters - none of which is a status - followed by exactly
one "cancelled" status, and exits cancelled. -/
theorem runLoop_first_cancel (cfg : EngineCfg) (o : Oracle)
    (hinj : ∀ k, o.injOk k = true) :
    ∀ (m : ℕ) (cs : List Char) (i d j : ℕ),
      m < cs.length →
      o.cancelAt (i + m) = true →
      (∀ k, k < m → o.cancelAt (i + k) = false) →
      ∃ pre,
        runLoop cfg o cs i d j = (pre ++ [Ev.status "cancelled"], .cancelled) ∧
        pre.countP (isStatus "cancelled") = 0 := by
  intro m
  induction m with
  | zero =>
    intro cs i d j hlen hset _
    cases cs with
    | nil => simp at hlen
    | cons c cs2 =>
      refine ⟨[], ?_, rfl⟩
      have hset0 : o.cancelAt i = true := by simpa using hset
      simp [runLoop, hset0]
  | succ n ih =>
    intro cs i d j hlen hset hbefore
    cases cs with
    | nil => simp at hlen
    | cons c cs2 =>
      have h0 : o.cancelAt i = false := by
        simpa using hbefore 0 (Nat.succ_pos n)
      have hok : (runActs o (charActs cfg o c i d).1 j).2.2 = true :=
        runActs_ok o hinj _ j
      obtain ⟨pre, hrec, hcnt⟩ :=
        ih cs2 (i + 1) (d + (charActs cfg o c i d).2)
          (runActs o (charActs cfg o c i d).1 j).2.1
          (by simpa using Nat.lt_of_succ_lt_succ (by simpa using hlen))
          (by
            have : i + 1 + n = i + (n + 1) := by omega
            rw [this]; exact hset)
          (by
            intro k hk
            have : i + 1 + k = i + (k + 1) := by omega
            rw [this]; exact hbefore (k + 1) (by omega))
      refine ⟨(runActs o (charActs cfg o c i d).1 j).1 ++ pre, ?_, ?_⟩
      · simp [runLoop, h0, hok, hrec]
      · rw [List.countP_append]
        rw [runActs_no_status o "cancelled" _
          (charActs_no_status cfg o c i d "cancelled") j, hcnt]

/-! ### Claims about TypingEngine.run -/

/-- C1: the cancellation signal is checked at the top of every loop
iteration, before the character is dispatched; if the signal is first
observed set at check i (and no injection fails first), the run emits
status "cancelled" exactly once, as its final event, so no further
character of the text is injected, however much text remains. -/
theorem cancel_emits_once_and_halts (cfg : EngineCfg) (o : Oracle)
    (text : List Char) (i : ℕ)
    (hlen : i < text.length)
    (hset : o.cancelAt i = true)
    (hbefore : ∀ k, k < i → o.cancelAt k = false)
    (hinj : ∀ k, o.injOk k = true) :
    ∃ pre,
      (run cfg o text false).events =
        Ev.status "typing" :: pre ++ [Ev.status "cancelled"] ∧
      pre.countP (isStatus "cancelled") = 0 ∧
      (run cfg o text false).events.countP (isStatus "cancelled") = 1 ∧
      (run cfg o text false).outcome = .cancelled := by
  obtain ⟨pre, hloop, hcnt⟩ :=
    runLoop_first_cancel cfg o hinj i text 0 0 0 hlen (by simpa using hset)
      (fun k hk => by simpa using hbefore k hk)
  refine ⟨pre, ?_, hcnt, ?_, ?_⟩
  · simp [run, hloop]
  · simp +decide [run, hloop, List.countP_cons, List.countP_append,
      hcnt, isStatus]
  · simp [run, hloop, outcomeOfExit]

/-- Concrete oracle for the cancellation witness: the flag turns on from
the second check onward, every injection succeeds. -/
def cancelOracle : Oracle :=
  { cancelAt := fun i => decide (1 ≤ i)
    randTypo := fun _ => 0
    typoChoice := fun _ => 0
    gaussZ := fun _ => 0
    injOk := fun _ => true }

/-- Engine configuration used by the run witnesses: 70 wpm, variance 0,
bounds [20, 300], typo rate 0. -/
def cfg70 : EngineCfg :=
  { delay := mkDelayModel 70 0 20 300, typo_rate := 0 }

/-- C1 witness: typing "Hello" under cancelOracle is cancelled at the
second check, with "cancelled" emitted exactly once as the last event. -/
theorem cancel_emits_once_and_halts_witness :
    ∃ pre,
      (run cfg70 cancelOracle ('H' :: 'e' :: 'l' :: 'l' :: 'o' :: [])
          false).events =
        Ev.status "typing" :: pre ++ [Ev.status "cancelled"] ∧
      pre.countP (isStatus "cancelled") = 0 ∧
      (run cfg70 cancelOracle ('H' :: 'e' :: 'l' :: 'l' :: 'o' :: [])
          false).events.countP (isStatus "cancelled") = 1 ∧
      (run cfg70 cancelOracle ('H' :: 'e' :: 'l' :: 'l' :: 'o' :: [])
          false).outcome = .cancelled :=
  cancel_emits_once_and_halts cfg70 cancelOracle _ 1 (by decide) rfl
    (fun k hk => by
      cases k with
      | zero => rfl
      | succ n => exact absurd hk (by omega))
    (fun _ => rfl)

/-- C2: run(text) while the exclusive typing lock is already held is a
silent no-op: no event of any kind is emitted, no error is raised, and
the lock state of the in-progress session is untouched. -/
theorem run_while_locked_is_noop (cfg : EngineCfg) (o : Oracle)
    (text : List Char) :
    run cfg o text true =
      { events := [], lockHeldAfter := true, outcome := .skipped } := rfl

/-- C3: a run that acquires the lock releases it on every exit path, and
the loop's exit - normal completion, cancellation, or a fatal injection
error - is propagated unchanged to the caller (an error is re-raised,
never retried or swallowed). -/
theorem lock_released_every_exit (cfg : EngineCfg) (o : Oracle)
    (text : List Char) :
    (run cfg o text false).lockHeldAfter = false ∧
    (run cfg o text false).outcome =
      outcomeOfExit (runLoop cfg o text 0 0 0).2 :=
  ⟨rfl, rfl⟩

/-- C4: for a non-newline, non-tab character, the typo path (alphabetic,
should_typo fires, a substitute exists) emits substitute, one model
delay, a backspace press/release, half a model delay, then the correct
character; every other character is injected directly; both paths end
with exactly one further model delay.  And the scenario: text "Hi\n" at
typo rate 0 emits H, wait, i, wait, enter press/release, wait, then
status "idle", with no backspaces. -/
theorem char_dispatch_and_scenario :
    (∀ (cfg : EngineCfg) (o : Oracle) (c t : Char) (i d : ℕ),
      c ≠ '\n' → c ≠ '\t' →
      pyIsAlpha c = true →
      should_typo cfg.typo_rate (o.randTypo i) = true →
      get_typo_char c (o.typoChoice i) = some t →
      charActs cfg o c i d =
        ([.inj (.typed t), .sleepFor (delayAt cfg o d),
          .inj (.press .backspace), .inj (.release .backspace),
          .sleepFor (delayAt cfg o (d + 1) * (1 / 2)),
          .inj (.typed c), .sleepFor (delayAt cfg o (d + 2))], 3)) ∧
    (∀ (cfg : EngineCfg) (o : Oracle) (c : Char) (i d : ℕ),
      c ≠ '\n' → c ≠ '\t' →
      (pyIsAlpha c = false ∨
        should_typo cfg.typo_rate (o.randTypo i) = false ∨
        get_typo_char c (o.typoChoice i) = none) →
      charActs cfg o c i d =
        ([.inj (.typed c), .sleepFor (delayAt cfg o d)], 1)) ∧
    (∀ (dm : DelayModel) (o : Oracle),
      (∀ i, o.cancelAt i = false) →
      (∀ k, o.injOk k = true) →
      (∀ i, 0 ≤ o.randTypo i) →
      run { delay := dm, typo_rate := 0 } o ('H' :: 'i' :: '\n' :: []) false =
        { events :=
            [.status "typing",
             .typed 'H', .sleep (delayAt { delay := dm, typo_rate := 0 } o 0),
             .typed 'i', .sleep (delayAt { delay := dm, typo_rate := 0 } o 1),
             .press .enter, .release .enter,
             .sleep (delayAt { delay := dm, typo_rate := 0 } o 2),
             .status "idle"]
          lockHeldAfter := false
          outcome := .completed }) := by
  refine ⟨?_, ?_, ?_⟩
  · intro cfg o c t i d h1 h2 h3 h4 h5
    simp [charActs, h1, h2, h3, h4, h5]
  · intro cfg o c i d h1 h2 h3
    rcases h3 with h | h | h
    · simp [charActs, h1, h2, h]
    · simp [charActs, h1, h2, h]
    · by_cases hc : pyIsAlpha c = true ∧
        should_typo cfg.typo_rate (o.randTypo i) = true
      · simp [charActs, h1, h2, hc, h]
      · simp [charActs, h1, h2, hc]
  · intro dm o hcancel hinj hrand
    have hst : ∀ i, should_typo (0 : ℚ) (o.randTypo i) = false := by
      intro i
      simp [should_typo, not_lt]
      exact hrand i
    simp +decide [run, runLoop, charActs, runActs, hcancel, hinj, hst,
      outcomeOfExit]

/-- Oracle for the C4 witness: never cancelled, all injections succeed,
all random draws zero. -/
def quietOracle : Oracle :=
  { cancelAt := fun _ => false
    randTypo := fun _ => 0
    typoChoice := fun _ => 0
    gaussZ := fun _ => 0
    injOk := fun _ => true }

/-- C4 witness: the typo path at 'a' with substitute 's', the direct path
at '5', and the "Hi\n" scenario run under quietOracle. -/
theorem char_dispatch_and_scenario_witness :
    charActs cfg70 quietOracle 'a' 4 6 =
      ([.inj (.typed 'a'), .sleepFor (delayAt cfg70 quietOracle 6)], 1) ∧
    run cfg70 quietOracle ('H' :: 'i' :: '\n' :: []) false =
      { events :=
          [.status "typing",
           .typed 'H', .sleep (delayAt cfg70 quietOracle 0),
           .typed 'i', .sleep (delayAt cfg70 quietOracle 1),
           .press .enter, .release .enter,
           .sleep (delayAt cfg70 quietOracle 2),
           .status "idle"]
        lockHeldAfter := false
        outcome := .completed } :=
  ⟨char_dispatch_and_scenario.2.1 cfg70 quietOracle 'a' 4 6
      (by decide) (by decide) (Or.inr (Or.inl rfl)),
   char_dispatch_and_scenario.2.2 (mkDelayModel 70 0 20 300) quietOracle
      (fun _ => rfl) (fun _ => rfl) (fun _ => le_refl 0)⟩

end AutoWriter
